import Mathlib

/-!
Verification of the `.aepx` asset-reference extractor (`scripts/parse_aepx.py`).

The development shallowly embeds the script: POSIX path manipulation
(`os.path.join`, `normpath`, `dirname`, `basename`, `splitext`, `relpath`,
`abspath`), the parsed XML tree with document-order iteration, a filesystem
model (existence, regular-file test, size, and the outcome of `ET.parse`),
the core extraction routine `parse_aepx`, and the CLI wrapper `main`.
-/

namespace Aepx

/-- Substring containment, the embedding of Python's `needle in hay` on
strings: some suffix of `hay` has `needle` as a prefix. -/
def strContains (hay needle : String) : Bool :=
  hay.toList.tails.any fun t => needle.toList.isPrefixOf t

/-- `s.startswith(pre)`, via character lists. -/
def strStartsWith (s pre : String) : Bool :=
  pre.toList.isPrefixOf s.toList

/-- `s.endswith(post)`, via character lists. -/
def strEndsWith (s post : String) : Bool :=
  post.toList.reverse.isPrefixOf s.toList.reverse

/-- `s.lower()`, via character lists. -/
def strToLower (s : String) : String :=
  String.mk (s.toList.map Char.toLower)

/-- `s.strip()`: remove leading and trailing whitespace, via character
lists. -/
def strTrim (s : String) : String :=
  String.mk ((s.toList.dropWhile Char.isWhitespace).reverse.dropWhile Char.isWhitespace).reverse

/-- `str.split(sep)` for a one-character separator, on character lists. -/
def splitOnChar (sep : Char) : List Char → List (List Char)
  | [] => [[]]
  | c :: cs =>
    if c = sep then [] :: splitOnChar sep cs
    else
      match splitOnChar sep cs with
      | [] => [[c]]
      | g :: gs => (c :: g) :: gs

/-- `p.split('/')` as a list of strings. -/
def splitSlash (p : String) : List String :=
  (splitOnChar '/' p.toList).map String.mk

/-- `'/'.join(xs)`. -/
def joinSlash (xs : List String) : String :=
  String.mk (List.intercalate ['/'] (xs.map String.toList))

/-- `os.path.isabs` on POSIX: the path starts with a slash. -/
def isabs (p : String) : Bool :=
  strStartsWith p "/"

/-- Two-argument `os.path.join` on POSIX. -/
def pjoin (a b : String) : String :=
  if strStartsWith b "/" then b
  else if a = "" ∨ strEndsWith a "/" then a ++ b
  else a ++ "/" ++ b

/-- One step of `posixpath.normpath`'s component loop: skip empty and `.`
components, append ordinary components (and `..` when it cannot be
cancelled), otherwise pop the last component. -/
def normStep (initialSlashes : Nat) (acc : List String) (comp : String) : List String :=
  if comp = "" ∨ comp = "." then acc
  else if comp ≠ ".." ∨ (initialSlashes = 0 ∧ acc = []) ∨ acc.getLast? = some ".." then
    acc ++ [comp]
  else if acc ≠ [] then acc.dropLast
  else acc

/-- `posixpath.normpath`: collapse `.`/`..`/redundant separators, keeping a
double (but not triple) leading slash. -/
def normpath (p : String) : String :=
  if p = "" then "." else
  let initialSlashes : Nat :=
    if strStartsWith p "/" then
      (if strStartsWith p "//" ∧ ¬ strStartsWith p "///" then 2 else 1)
    else 0
  let comps := splitSlash p
  let newComps := comps.foldl (normStep initialSlashes) []
  let res := String.mk (List.replicate initialSlashes '/') ++ joinSlash newComps
  if res = "" then "." else res

/-- Split a path at its last slash: `(everything up to and including the last
slash, the final segment)`, matching `p[:p.rfind(sep)+1]` / `p[p.rfind(sep)+1:]`. -/
def splitLast (p : String) : List Char × List Char :=
  let cs := p.toList
  let tl := cs.reverse.takeWhile (· ≠ '/')
  (cs.take (cs.length - tl.length), tl.reverse)

/-- `posixpath.basename`: the part after the last slash. -/
def basename (p : String) : String :=
  String.mk (splitLast p).2

/-- `posixpath.dirname`: the part before the last slash, with trailing slashes
stripped unless the head is all slashes. -/
def dirname (p : String) : String :=
  let head := (splitLast p).1
  if head ≠ [] ∧ ¬ head.all (· = '/') then
    String.mk (head.reverse.dropWhile (· = '/')).reverse
  else String.mk head

/-- The extension component of `posixpath.splitext`: from the last dot of the
final segment, unless every character before that dot is itself a dot. -/
def extension (p : String) : String :=
  let base := (splitLast p).2
  let afterDot := base.reverse.takeWhile (· ≠ '.')
  if afterDot.length = base.length then ""
  else
    let d := base.length - afterDot.length - 1
    if (base.take d).all (· = '.') then "" else String.mk (base.drop d)

/-- Length of the longest common prefix of two component lists
(`genericpath.commonprefix` on a pair). -/
def commonPrefixLen : List String → List String → Nat
  | a :: as, b :: bs => if a = b then commonPrefixLen as bs + 1 else 0
  | _, _ => 0

/-- `posixpath.abspath` with the working directory passed explicitly. -/
def abspath (cwd p : String) : String :=
  if isabs p then normpath p else normpath (pjoin cwd p)

/-- `posixpath.relpath path start` with the working directory passed
explicitly. -/
def relpath (cwd p start : String) : String :=
  let startList := (splitSlash (abspath cwd start)).filter (· ≠ "")
  let pathList := (splitSlash (abspath cwd p)).filter (· ≠ "")
  let i := commonPrefixLen startList pathList
  let relList := List.replicate (startList.length - i) ".." ++ pathList.drop i
  if relList = [] then "." else joinSlash relList

/-- A parsed XML element: tag, attributes, optional text, children
(`xml.etree.ElementTree.Element`). -/
inductive XElem : Type where
  | node (tag : String) (attrib : List (String × String)) (text : Option String)
      (children : List XElem)

/-- The element's tag. -/
def XElem.tag : XElem → String
  | .node t _ _ _ => t

/-- The element's attributes, as an association list. -/
def XElem.attrib : XElem → List (String × String)
  | .node _ a _ _ => a

/-- The element's text content (`None` modelled as `none`). -/
def XElem.text : XElem → Option String
  | .node _ _ x _ => x

/-- The element's children. -/
def XElem.children : XElem → List XElem
  | .node _ _ _ cs => cs

mutual

/-- `root.iter()`: the element and all its descendants in document order. -/
def XElem.iterAll : XElem → List XElem
  | .node t a x cs => .node t a x cs :: iterForest cs
termination_by structural e => e

/-- Document-order traversal of a list of sibling elements. -/
def iterForest : List XElem → List XElem
  | [] => []
  | e :: es => XElem.iterAll e ++ iterForest es
termination_by structural l => l

end

/-- Dictionary lookup in the attribute map (`elem.attrib[k]` guarded by
`k in elem.attrib`). -/
def lookupAttr (attrs : List (String × String)) (k : String) : Option String :=
  (attrs.find? fun kv => kv.1 = k).map (·.2)

/-- Method 1 of the collection loop: elements whose tag ends with or contains
`fileReference`, with a non-blank `fullpath` attribute, contribute the trimmed
attribute value. -/
def method1 (elems : List XElem) : List String :=
  elems.filterMap fun e =>
    if strEndsWith e.tag "fileReference" ∨ strContains e.tag "fileReference" then
      match lookupAttr e.attrib "fullpath" with
      | some fullpath =>
        if fullpath ≠ "" ∧ strTrim fullpath ≠ "" then some (strTrim fullpath) else none
      | none => none
    else none

/-- Method 2 of the collection loop: `fullpath` elements with non-empty text
contribute that text verbatim. -/
def method2 (elems : List XElem) : List String :=
  elems.filterMap fun e =>
    if e.tag = "fullpath" then
      match e.text with
      | some t => if t ≠ "" then some t else none
      | none => none
    else none

/-- Method 3 of the collection loop: `file`/`path`/`src`/`source` elements
contribute their non-empty text and every attribute whose lower-cased name
contains `path` or `file`. -/
def method3 (elems : List XElem) : List String :=
  elems.flatMap fun e =>
    if e.tag ∈ ["file", "path", "src", "source"] then
      (match e.text with
       | some t => if t ≠ "" then [t] else []
       | none => []) ++
      e.attrib.filterMap (fun kv =>
        if strContains (strToLower kv.1) "path" ∨ strContains (strToLower kv.1) "file" then
          some kv.2
        else none)
    else []

/-- All candidate path strings collected by the three methods, in document
order (the Python code inserts them into a set). -/
def collectCandidates (root : XElem) : List String :=
  method1 root.iterAll ++ method2 root.iterAll ++ method3 root.iterAll

/-- The ambient filesystem: working directory, existence and regular-file
tests, file size, and the outcome of `ET.parse` (`none` models any exception
while opening or parsing). -/
structure FileSys where
  cwd : String
  pathExists : String → Bool
  isFile : String → Bool
  getsize : String → Nat
  parseXML : String → Option XElem

/-- One entry of the report's `assets` list. -/
structure AssetRecord where
  path : String
  relative_path : String
  filename : String
  extension : String
  size : Nat
deriving DecidableEq

/-- The extraction report returned by `parse_aepx`. -/
structure Report where
  project_file : String
  assets : List AssetRecord
  missing_assets : List String
  total_size : Nat
deriving DecidableEq

/-- The URL-scheme filter: `asset_path.startswith(('http://', 'https://',
'file://'))`. -/
def urlScheme (s : String) : Bool :=
  strStartsWith s "http://" || strStartsWith s "https://" || strStartsWith s "file://"

/-- Mutable state of the processing loop: the growing `assets` and
`missing_assets` lists and the running size total. -/
structure ProcState where
  assets : List AssetRecord
  missing : List String
  total : Nat
deriving DecidableEq

/-- Trim a candidate, resolve it against the project directory when relative,
and normalize (steps 2, 4, 5 of resolution). -/
def normalizeCandidate (projectDir cand : String) : String :=
  let c := strTrim cand
  normpath (if isabs c then c else pjoin projectDir c)

/-- The `AssetRecord` built for an existing regular file at path `q`. -/
def recordOfPath (fs : FileSys) (projectDir q : String) : AssetRecord :=
  { path := q
    relative_path := relpath fs.cwd q projectDir
    filename := basename q
    extension := extension q
    size := fs.getsize q }

/-- The body of the `for asset_path in asset_paths` loop of `parse_aepx`. -/
def stepCandidate (fs : FileSys) (projectDir : String) (st : ProcState) (cand : String) :
    ProcState :=
  if cand = "" ∨ strTrim cand = "" then st
  else
    let c := strTrim cand
    if urlScheme c then st
    else
      let c := if isabs c then c else pjoin projectDir c
      let c := normpath c
      if fs.pathExists c ∧ fs.isFile c then
        { assets := st.assets ++ [recordOfPath fs projectDir c]
          missing := st.missing
          total := st.total + fs.getsize c }
      else
        { st with missing := st.missing ++ [c] }

/-- The whole processing loop over the candidate set. -/
def processCandidates (fs : FileSys) (projectDir : String) (cands : List String) : ProcState :=
  cands.foldl (stepCandidate fs projectDir) ⟨[], [], 0⟩

/-- Comparator for `missing_assets.sort()`. -/
def leString (a b : String) : Bool :=
  decide (a ≤ b)

/-- Comparator for `assets.sort(key=lambda x: x["path"])`. -/
def leRecord (a b : AssetRecord) : Bool :=
  decide (a.path ≤ b.path)

/-- Build the report from the (deduplicated) candidate list: resolve every
candidate, then sort both output lists. -/
def reportFromCands (fs : FileSys) (aepx_path : String) (cands : List String) : Report :=
  let project_dir := dirname (abspath fs.cwd aepx_path)
  let st := processCandidates fs project_dir cands
  { project_file := abspath fs.cwd aepx_path
    assets := st.assets.mergeSort leRecord
    missing_assets := st.missing.mergeSort leString
    total_size := st.total }

/-- `parse_aepx`: parse the document (soft-failing to an empty report),
collect the candidate set, resolve each candidate, and sort the outputs.
The Python set of candidates is modelled as the deduplicated collection
list; processing is invariant under permutations of that list. -/
def parse_aepx (fs : FileSys) (aepx_path : String) : Report :=
  match fs.parseXML aepx_path with
  | none =>
      { project_file := abspath fs.cwd aepx_path
        assets := []
        missing_assets := []
        total_size := 0 }
  | some root => reportFromCands fs aepx_path (collectCandidates root).dedup

/-- The diagnostics `parse_aepx` writes to the error stream. -/
def parse_aepx_stderr (fs : FileSys) (aepx_path : String) : List String :=
  match fs.parseXML aepx_path with
  | none => ["Warning: XML parse error"]
  | some _ => []

/-- Observable outcome of one CLI invocation: exit code, the report printed
on standard output (if any), and the error-stream lines. -/
structure CliOutcome where
  exitCode : Nat
  stdout : Option Report
  stderr : List String
deriving DecidableEq

/-- `main`: argument checking, then `parse_aepx`, JSON printing (modelled as
the structured report on standard output) and the exit code. `argv` includes
the program name, as `sys.argv` does. -/
def main_cli (fs : FileSys) (argv : List String) : CliOutcome :=
  if argv.length ≠ 2 then
    { exitCode := 1, stdout := none, stderr := ["Usage: parse_aepx.py <path-to-aepx-file>"] }
  else
    let aepx_path := argv.getD 1 ""
    if fs.pathExists aepx_path then
      if strEndsWith aepx_path ".aepx" then
        let result := parse_aepx fs aepx_path
        { exitCode := if result.missing_assets ≠ [] then 2 else 0
          stdout := some result
          stderr := parse_aepx_stderr fs aepx_path }
      else
        { exitCode := 1, stdout := none
          stderr := ["Error: File must have .aepx extension"] }
    else
      { exitCode := 1, stdout := none
        stderr := ["Error: File " ++ aepx_path ++ " not found"] }

/-- A candidate survives the resolution-time filters when it is non-empty
after trimming and its trimmed value has no URL scheme. -/
def survives (c : String) : Bool :=
  !(strTrim c == "") && !(urlScheme (strTrim c))

/-- The exists-and-is-regular-file test of the resolution step. -/
def existsFile (fs : FileSys) (q : String) : Bool :=
  fs.pathExists q && fs.isFile q

/-- The surviving candidates whose normalized path is an existing regular
file, in candidate order. -/
def foundCands (fs : FileSys) (pd : String) (cands : List String) : List String :=
  (cands.filter survives).filter fun c => existsFile fs (normalizeCandidate pd c)

/-- The surviving candidates whose normalized path is not an existing regular
file, in candidate order. -/
def missCands (fs : FileSys) (pd : String) (cands : List String) : List String :=
  (cands.filter survives).filter fun c => !existsFile fs (normalizeCandidate pd c)

/-- The deduplicated candidate set after empty-string and URL-scheme
filtering. -/
def survivors (root : XElem) : List String :=
  (collectCandidates root).dedup.filter survives

/-- Rule A as the specification words it: an element whose tag equals, ends
with, or contains `fileReference`, carrying an attribute literally named
`fullpath` whose value is non-blank after trimming, contributes the trimmed
value. -/
def specRuleA (root : XElem) (s : String) : Prop :=
  ∃ e ∈ root.iterAll,
    (e.tag = "fileReference" ∨ strEndsWith e.tag "fileReference" ∨
      strContains e.tag "fileReference") ∧
    ∃ v, lookupAttr e.attrib "fullpath" = some v ∧ strTrim v ≠ "" ∧ s = strTrim v

/-- Rule B as the specification words it: an element whose tag is exactly
`fullpath` with non-empty text contributes that text verbatim. -/
def specRuleB (root : XElem) (s : String) : Prop :=
  ∃ e ∈ root.iterAll, e.tag = "fullpath" ∧ e.text = some s ∧ s ≠ ""

/-- Rule C as the specification words it: an element whose tag is exactly one
of `file`, `path`, `src`, `source` contributes its non-empty text content,
and the value of every attribute whose name contains (case-insensitively)
`path` or `file`. -/
def specRuleC (root : XElem) (s : String) : Prop :=
  ∃ e ∈ root.iterAll, e.tag ∈ ["file", "path", "src", "source"] ∧
    ((e.text = some s ∧ s ≠ "") ∨
     ∃ kv ∈ e.attrib,
       (strContains (strToLower kv.1) "path" ∨ strContains (strToLower kv.1) "file") ∧
       s = kv.2)

/-- Concrete document: one `fileReference` whose `fullpath` carries an
upper-case URL scheme. -/
def docC : XElem :=
  .node "root" [] none
    [.node "fileReference" [("fullpath", "HTTP://example.com/a.mov")] none []]

/-- Concrete filesystem on which no path exists and every document parses to
`docC`. -/
def fsC : FileSys :=
  { cwd := "/work"
    pathExists := fun _ => false
    isFile := fun _ => false
    getsize := fun _ => 0
    parseXML := fun _ => some docC }

/-- Concrete document: the same relative path referenced both by a
`fileReference` attribute and by a `path` element. -/
def docG : XElem :=
  .node "AfterEffectsProject" [] none
    [.node "fileReference" [("fullpath", "footage/clip.mov")] none [],
     .node "path" [] (some "footage/clip.mov") []]

/-- Concrete filesystem holding one 1024-byte regular file referenced by
`docG`; every document parses to `docG`. -/
def fsG : FileSys :=
  { cwd := "/work"
    pathExists := fun p => p == "/work/footage/clip.mov"
    isFile := fun p => p == "/work/footage/clip.mov"
    getsize := fun _ => 1024
    parseXML := fun _ => some docG }

/-- Concrete filesystem on which no path exists and parsing always fails. -/
def fsNone : FileSys :=
  { cwd := "/work"
    pathExists := fun _ => false
    isFile := fun _ => false
    getsize := fun _ => 0
    parseXML := fun _ => none }

/-- Concrete filesystem on which every path exists but is not a regular file
and parsing always fails (an existing but malformed document). -/
def fsBad : FileSys :=
  { cwd := "/work"
    pathExists := fun _ => true
    isFile := fun _ => false
    getsize := fun _ => 0
    parseXML := fun _ => none }

theorem strTrim_empty : strTrim "" = "" := by decide

theorem ne_empty_of_strTrim {c : String} (h : strTrim c ≠ "") : c ≠ "" := by
  intro hc
  subst hc
  exact h strTrim_empty

theorem stepCandidate_eq (fs : FileSys) (pd : String) (st : ProcState) (cand : String) :
    stepCandidate fs pd st cand =
      if survives cand then
        (if existsFile fs (normalizeCandidate pd cand) then
          { assets := st.assets ++ [recordOfPath fs pd (normalizeCandidate pd cand)]
            missing := st.missing
            total := st.total + fs.getsize (normalizeCandidate pd cand) }
        else { st with missing := st.missing ++ [normalizeCandidate pd cand] })
      else st := by
  by_cases h1 : strTrim cand = ""
  · have hs : survives cand = false := by simp [survives, h1]
    simp [stepCandidate, h1, hs]
  · have hcand : ¬(cand = "" ∨ strTrim cand = "") := by
      rintro (rfl | h)
      · exact h1 strTrim_empty
      · exact h1 h
    by_cases h2 : urlScheme (strTrim cand) = true
    · have hs : survives cand = false := by simp [survives, h2]
      simp [stepCandidate, hcand, h2, hs]
    · have hs : survives cand = true := by
        simp [survives, h1, h2]
      rw [stepCandidate, if_neg hcand]
      simp only [h2, Bool.false_eq_true, if_false, hs, if_true]
      by_cases h3 : existsFile fs (normalizeCandidate pd cand) = true
      · have h3' := h3
        simp only [existsFile, Bool.and_eq_true] at h3'
        rw [if_pos (by simp [normalizeCandidate] at h3' ⊢; exact h3')]
        simp only [normalizeCandidate] at h3
        simp [h3, normalizeCandidate, recordOfPath]
      · have h3' : ¬(fs.pathExists (normpath (if isabs (strTrim cand) then strTrim cand
            else pjoin pd (strTrim cand))) = true ∧
            fs.isFile (normpath (if isabs (strTrim cand) then strTrim cand
            else pjoin pd (strTrim cand))) = true) := by
          intro hc
          exact h3 (by simp [existsFile, Bool.and_eq_true, normalizeCandidate]; exact hc)
        rw [if_neg h3']
        simp only [h3, Bool.false_eq_true, if_false]
        simp [normalizeCandidate]

theorem foldl_stepCandidate (fs : FileSys) (pd : String) (cands : List String) :
    ∀ st : ProcState,
      cands.foldl (stepCandidate fs pd) st =
        { assets := st.assets ++ (foundCands fs pd cands).map
            (fun c => recordOfPath fs pd (normalizeCandidate pd c))
          missing := st.missing ++ (missCands fs pd cands).map (normalizeCandidate pd)
          total := st.total + ((foundCands fs pd cands).map
            (fun c => fs.getsize (normalizeCandidate pd c))).sum } := by
  induction cands with
  | nil => intro st; simp [foundCands, missCands]
  | cons c cs ih =>
    intro st
    rw [List.foldl_cons, stepCandidate_eq, ih]
    by_cases h1 : survives c
    · by_cases h2 : existsFile fs (normalizeCandidate pd c) = true
      · simp [foundCands, missCands, List.filter_cons, h1, h2, Nat.add_assoc]
      · simp [foundCands, missCands, List.filter_cons, h1, h2]
    · simp [foundCands, missCands, List.filter_cons, h1]

theorem processCandidates_eq (fs : FileSys) (pd : String) (cands : List String) :
    processCandidates fs pd cands =
      { assets := (foundCands fs pd cands).map
          (fun c => recordOfPath fs pd (normalizeCandidate pd c))
        missing := (missCands fs pd cands).map (normalizeCandidate pd)
        total := ((foundCands fs pd cands).map
          (fun c => fs.getsize (normalizeCandidate pd c))).sum } := by
  rw [processCandidates, foldl_stepCandidate]
  simp

/-- C5: in every report returned by the extractor, `total_size` equals the
sum of the `size` fields of the `assets` entries. -/
theorem total_size_eq_sum_of_assets (fs : FileSys) (p : String) :
    (parse_aepx fs p).total_size = ((parse_aepx fs p).assets.map (fun a => a.size)).sum := by
  cases hparse : fs.parseXML p with
  | none => simp [parse_aepx, hparse]
  | some root =>
    simp only [parse_aepx, hparse, reportFromCands, processCandidates_eq]
    have hperm :
        ((((foundCands fs (dirname (abspath fs.cwd p)) (collectCandidates root).dedup).map
            (fun c => recordOfPath fs (dirname (abspath fs.cwd p))
              (normalizeCandidate (dirname (abspath fs.cwd p)) c))).mergeSort leRecord).map
          (fun a => a.size)).Perm
        (((foundCands fs (dirname (abspath fs.cwd p)) (collectCandidates root).dedup).map
            (fun c => recordOfPath fs (dirname (abspath fs.cwd p))
              (normalizeCandidate (dirname (abspath fs.cwd p)) c))).map
          (fun a => a.size)) :=
      (List.mergeSort_perm _ leRecord).map _
    rw [hperm.sum_eq, List.map_map]
    rfl

/-- C9: the soft-fail branch covers every exception raised while opening or
parsing the input (`fs.parseXML q = none` models any such failure, including
a path that does not exist or cannot be read): the extractor returns the
empty report with `project_file` set to the absolute input path and emits a
warning on the error stream. -/
theorem soft_fail_on_any_open_error (fs : FileSys) (p : String)
    (h : fs.parseXML p = none) :
    parse_aepx fs p =
      { project_file := abspath fs.cwd p, assets := [], missing_assets := [], total_size := 0 } ∧
    parse_aepx_stderr fs p = ["Warning: XML parse error"] := by
  constructor <;> simp [parse_aepx, parse_aepx_stderr, h]

/-- Witness for C9 at a concrete nonexistent path: `fsNone` has no file at
`/gone.aepx` and parsing fails, yet `parse_aepx` returns the empty report. -/
theorem soft_fail_on_any_open_error_witness :
    fsNone.pathExists "/gone.aepx" = false ∧
    parse_aepx fsNone "/gone.aepx" =
      { project_file := "/gone.aepx", assets := [], missing_assets := [], total_size := 0 } ∧
    parse_aepx_stderr fsNone "/gone.aepx" = ["Warning: XML parse error"] := by
  have h := soft_fail_on_any_open_error fsNone "/gone.aepx" rfl
  exact ⟨rfl, h.1.trans (by decide), h.2⟩

/-- C10: the URL-scheme filter is case-sensitive: the candidate
`HTTP://example.com/a.mov` (upper-case scheme) is collected, is not dropped,
and is resolved as a relative path that lands in `missing_assets`. -/
theorem upper_case_scheme_not_dropped :
    "HTTP://example.com/a.mov" ∈ collectCandidates docC ∧
    parse_aepx fsC "/work/proj.aepx" =
      { project_file := "/work/proj.aepx", assets := [],
        missing_assets := ["/work/HTTP:/example.com/a.mov"], total_size := 0 } := by
  constructor
  · decide
  · have h1 : parse_aepx fsC "/work/proj.aepx" =
        reportFromCands fsC "/work/proj.aepx" (collectCandidates docC).dedup := rfl
    rw [h1, show (collectCandidates docC).dedup = ["HTTP://example.com/a.mov"] by decide]
    simp only [reportFromCands]
    rw [show processCandidates fsC (dirname (abspath fsC.cwd "/work/proj.aepx"))
          ["HTTP://example.com/a.mov"] = ⟨[], ["/work/HTTP:/example.com/a.mov"], 0⟩ by decide]
    simp only [List.mergeSort_nil, List.mergeSort_singleton]
    decide

theorem leString_trans (a b c : String) (h1 : leString a b = true)
    (h2 : leString b c = true) : leString a c = true := by
  simp only [leString, decide_eq_true_eq] at h1 h2 ⊢
  exact le_trans h1 h2

theorem leString_total (a b : String) : leString a b || leString b a := by
  simp only [leString, Bool.or_eq_true, decide_eq_true_eq]
  exact le_total a b

theorem leRecord_trans (a b c : AssetRecord) (h1 : leRecord a b = true)
    (h2 : leRecord b c = true) : leRecord a c = true := by
  simp only [leRecord, decide_eq_true_eq] at h1 h2 ⊢
  exact le_trans h1 h2

theorem leRecord_total (a b : AssetRecord) : leRecord a b || leRecord b a := by
  simp only [leRecord, Bool.or_eq_true, decide_eq_true_eq]
  exact le_total a.path b.path

/-- C7: `assets` is sorted ascending by the `path` field and
`missing_assets` is sorted ascending, both under ordinary lexicographic
string comparison. -/
theorem report_outputs_sorted (fs : FileSys) (p : String) :
    (parse_aepx fs p).assets.Pairwise (fun a b => a.path ≤ b.path) ∧
    (parse_aepx fs p).missing_assets.Pairwise (fun a b => a ≤ b) := by
  cases hparse : fs.parseXML p with
  | none => simp [parse_aepx, hparse]
  | some root =>
    simp only [parse_aepx, hparse, reportFromCands]
    constructor
    · exact (List.sorted_mergeSort leRecord_trans leRecord_total _).imp
        (fun h => by simpa [leRecord, decide_eq_true_eq] using h)
    · exact (List.sorted_mergeSort leString_trans leString_total _).imp
        (fun h => by simpa [leString, decide_eq_true_eq] using h)

/-- C3: on a document that fails to parse, the CLI still succeeds: a
diagnostic goes to the error stream, the report has `project_file` set to
the absolute input path with empty `assets`/`missing_assets` and
`total_size = 0`, and the process exits with code 0. -/
theorem parse_failure_exits_zero (fs : FileSys) (prog p : String)
    (hparse : fs.parseXML p = none) (hex : fs.pathExists p = true)
    (hsuf : strEndsWith p ".aepx" = true) :
    main_cli fs [prog, p] =
      { exitCode := 0
        stdout := some ⟨abspath fs.cwd p, [], [], 0⟩
        stderr := ["Warning: XML parse error"] } := by
  simp [main_cli, hex, hsuf, parse_aepx, parse_aepx_stderr, hparse]

/-- Witness for C3: a concrete existing `.aepx` file whose parse fails. -/
theorem parse_failure_exits_zero_witness :
    main_cli fsBad ["prog", "/work/bad.aepx"] =
      { exitCode := 0
        stdout := some ⟨"/work/bad.aepx", [], [], 0⟩
        stderr := ["Warning: XML parse error"] } :=
  (parse_failure_exits_zero fsBad "prog" "/work/bad.aepx" rfl rfl (by decide)).trans (by decide)

/-- C4: the CLI exits 1 with nothing on standard output when the argument
count is wrong, the path does not exist, or the name does not end in
`.aepx`; otherwise it prints the report (modelled structurally on standard
output) and exits 2 when `missing_assets` is non-empty, 0 when it is
empty. -/
theorem cli_contract (fs : FileSys) (argv : List String) :
    (argv.length ≠ 2 →
      main_cli fs argv =
        { exitCode := 1, stdout := none,
          stderr := ["Usage: parse_aepx.py <path-to-aepx-file>"] }) ∧
    ∀ prog p, argv = [prog, p] →
      (fs.pathExists p = false →
        main_cli fs argv =
          { exitCode := 1, stdout := none,
            stderr := ["Error: File " ++ p ++ " not found"] }) ∧
      (fs.pathExists p = true → strEndsWith p ".aepx" = false →
        main_cli fs argv =
          { exitCode := 1, stdout := none,
            stderr := ["Error: File must have .aepx extension"] }) ∧
      (fs.pathExists p = true → strEndsWith p ".aepx" = true →
        main_cli fs argv =
          { exitCode := if (parse_aepx fs p).missing_assets ≠ [] then 2 else 0
            stdout := some (parse_aepx fs p)
            stderr := parse_aepx_stderr fs p }) := by
  constructor
  · intro h
    simp [main_cli, h]
  · rintro prog p rfl
    refine ⟨fun hex => by simp [main_cli, hex], fun hex hsuf => by simp [main_cli, hex, hsuf],
      fun hex hsuf => by simp [main_cli, hex, hsuf]⟩

/-- Witness for C4: each branch of the CLI contract at a concrete
invocation. -/
theorem cli_contract_witness :
    main_cli fsG ["prog"] =
      { exitCode := 1, stdout := none,
        stderr := ["Usage: parse_aepx.py <path-to-aepx-file>"] } ∧
    main_cli fsNone ["prog", "/gone.aepx"] =
      { exitCode := 1, stdout := none, stderr := ["Error: File /gone.aepx not found"] } ∧
    main_cli fsBad ["prog", "/work/doc.txt"] =
      { exitCode := 1, stdout := none, stderr := ["Error: File must have .aepx extension"] } ∧
    main_cli fsBad ["prog", "/work/ok.aepx"] =
      { exitCode := 0
        stdout := some ⟨"/work/ok.aepx", [], [], 0⟩
        stderr := ["Warning: XML parse error"] } := by
  refine ⟨(cli_contract fsG ["prog"]).1 (by decide), ?_, ?_, ?_⟩
  · exact ((((cli_contract fsNone ["prog", "/gone.aepx"]).2 "prog" "/gone.aepx" rfl).1)
      rfl).trans (by decide)
  · exact ((((cli_contract fsBad ["prog", "/work/doc.txt"]).2 "prog" "/work/doc.txt"
      rfl).2.1) rfl (by decide)).trans (by decide)
  · exact ((((cli_contract fsBad ["prog", "/work/ok.aepx"]).2 "prog" "/work/ok.aepx"
      rfl).2.2) rfl (by decide)).trans (by decide)

/-- C1: resolution of one unique candidate string: drop when empty after
trimming; drop when the trimmed value has a URL scheme; otherwise resolve
against the project directory when relative, normalize, and either append
exactly one `AssetRecord` (path, relative path against the project
directory, final path segment, suffix with leading dot, size in bytes) when
the normalized path is an existing regular file, or append the normalized
path string to the missing list. -/
theorem candidate_resolution (fs : FileSys) (pd : String) (st : ProcState) (cand : String) :
    (strTrim cand = "" → stepCandidate fs pd st cand = st) ∧
    (strTrim cand ≠ "" → urlScheme (strTrim cand) = true →
      stepCandidate fs pd st cand = st) ∧
    (strTrim cand ≠ "" → urlScheme (strTrim cand) = false →
      (existsFile fs (normalizeCandidate pd cand) = true →
        stepCandidate fs pd st cand =
          { assets := st.assets ++
              [{ path := normalizeCandidate pd cand
                 relative_path := relpath fs.cwd (normalizeCandidate pd cand) pd
                 filename := basename (normalizeCandidate pd cand)
                 extension := extension (normalizeCandidate pd cand)
                 size := fs.getsize (normalizeCandidate pd cand) }]
            missing := st.missing
            total := st.total + fs.getsize (normalizeCandidate pd cand) }) ∧
      (existsFile fs (normalizeCandidate pd cand) = false →
        stepCandidate fs pd st cand =
          { st with missing := st.missing ++ [normalizeCandidate pd cand] })) := by
  refine ⟨fun h1 => ?_, fun h1 h2 => ?_, fun h1 h2 => ⟨fun h3 => ?_, fun h3 => ?_⟩⟩
  · rw [stepCandidate_eq]
    simp [survives, h1]
  · rw [stepCandidate_eq]
    simp [survives, h2]
  · rw [stepCandidate_eq]
    have hs : survives cand = true := by simp [survives, h1, h2]
    simp [hs, h3, recordOfPath]
  · rw [stepCandidate_eq]
    have hs : survives cand = true := by simp [survives, h1, h2]
    simp [hs, h3]

/-- Witness for C1: one concrete candidate for each resolution branch. -/
theorem candidate_resolution_witness :
    stepCandidate fsC "/work" ⟨[], [], 0⟩ " " = ⟨[], [], 0⟩ ∧
    stepCandidate fsC "/work" ⟨[], [], 0⟩ "https://e.com/a.mov" = ⟨[], [], 0⟩ ∧
    stepCandidate fsC "/work" ⟨[], [], 0⟩ "img.png" = ⟨[], ["/work/img.png"], 0⟩ ∧
    stepCandidate fsG "/work" ⟨[], [], 0⟩ " footage/clip.mov " =
      ⟨[{ path := "/work/footage/clip.mov", relative_path := "footage/clip.mov",
          filename := "clip.mov", extension := ".mov", size := 1024 }], [], 1024⟩ := by
  refine ⟨?_, ?_, ?_, ?_⟩
  · exact (candidate_resolution fsC "/work" ⟨[], [], 0⟩ " ").1 (by decide)
  · exact (candidate_resolution fsC "/work" ⟨[], [], 0⟩ "https://e.com/a.mov").2.1
      (by decide) (by decide)
  · exact (((candidate_resolution fsC "/work" ⟨[], [], 0⟩ "img.png").2.2
      (by decide) (by decide)).2 (by decide)).trans (by decide)
  · exact (((candidate_resolution fsG "/work" ⟨[], [], 0⟩ " footage/clip.mov ").2.2
      (by decide) (by decide)).1 (by decide)).trans (by decide)

theorem m1elem_eq_some {e : XElem} {s : String} :
    (if strEndsWith e.tag "fileReference" ∨ strContains e.tag "fileReference" then
      match lookupAttr e.attrib "fullpath" with
      | some fullpath =>
        if fullpath ≠ "" ∧ strTrim fullpath ≠ "" then some (strTrim fullpath) else none
      | none => none
    else none) = some s ↔
    (strEndsWith e.tag "fileReference" ∨ strContains e.tag "fileReference") ∧
      ∃ v, lookupAttr e.attrib "fullpath" = some v ∧ (v ≠ "" ∧ strTrim v ≠ "") ∧
        s = strTrim v := by
  split
  next hc =>
    split
    next v heq =>
      by_cases hv : v ≠ "" ∧ strTrim v ≠ ""
      · rw [if_pos hv]
        constructor
        · intro h
          exact ⟨hc, v, heq, hv, (Option.some.inj h).symm⟩
        · rintro ⟨-, v', hv'eq, hv', rfl⟩
          rw [heq] at hv'eq
          rw [Option.some.inj hv'eq]
      · rw [if_neg hv]
        constructor
        · intro h
          simp at h
        · rintro ⟨-, v', hv'eq, hv', -⟩
          rw [heq] at hv'eq
          cases Option.some.inj hv'eq
          exact absurd hv' hv
    next heq => simp [heq]
  next hc => simp [hc]

theorem m2elem_eq_some {e : XElem} {s : String} :
    (if e.tag = "fullpath" then
      match e.text with
      | some t => if t ≠ "" then some t else none
      | none => none
    else none) = some s ↔
    e.tag = "fullpath" ∧ e.text = some s ∧ s ≠ "" := by
  split
  next hc =>
    split
    next t heq =>
      by_cases ht : t ≠ ""
      · rw [if_pos ht]
        constructor
        · intro h
          exact ⟨hc, heq.trans h, fun hs => ht ((Option.some.inj h).trans hs)⟩
        · rintro ⟨-, hts, -⟩
          rw [heq] at hts
          exact hts
      · rw [if_neg ht]
        constructor
        · intro h
          simp at h
        · rintro ⟨-, h1, h2⟩
          rw [heq] at h1
          have ht' := not_not.mp ht
          subst ht'
          exact absurd (Option.some.inj h1).symm h2
    next heq => simp [heq]
  next hc => simp [hc]

theorem mem_m3elem {e : XElem} {s : String} :
    (s ∈ if e.tag ∈ ["file", "path", "src", "source"] then
        (match e.text with
         | some t => if t ≠ "" then [t] else []
         | none => []) ++
        e.attrib.filterMap (fun kv =>
          if strContains (strToLower kv.1) "path" ∨ strContains (strToLower kv.1) "file" then
            some kv.2
          else none)
      else []) ↔
    e.tag ∈ ["file", "path", "src", "source"] ∧
      ((e.text = some s ∧ s ≠ "") ∨
       ∃ kv ∈ e.attrib,
         (strContains (strToLower kv.1) "path" ∨ strContains (strToLower kv.1) "file") ∧
         s = kv.2) := by
  split
  next hc =>
    simp only [List.mem_append, List.mem_filterMap, hc, true_and]
    refine or_congr ?_ ?_
    · split
      next t heq =>
        by_cases ht : t ≠ ""
        · rw [if_pos ht]
          constructor
          · intro h
            have hst : s = t := by simpa using h
            subst hst
            exact ⟨heq, ht⟩
          · rintro ⟨h1, -⟩
            rw [heq] at h1
            simp [Option.some.inj h1]
        · rw [if_neg ht]
          constructor
          · intro h
            simp at h
          · rintro ⟨h1, h2⟩
            rw [heq] at h1
            have ht' := not_not.mp ht
            subst ht'
            exact absurd (Option.some.inj h1).symm h2
      next heq => simp [heq]
    · refine exists_congr fun kv => and_congr_right fun _ => ?_
      split
      next hcond =>
        constructor
        · intro h
          exact ⟨hcond, (Option.some.inj h).symm⟩
        · rintro ⟨-, rfl⟩
          rfl
      next hcond => simp [hcond]
  next hc => simp [hc]

/-- C2: the candidate set is exactly the union of the three collection
rules, each applied over every node of the parsed tree, as the
specification words them (`specRuleA`, `specRuleB`, `specRuleC`). -/
theorem candidate_set_rules (root : XElem) (s : String) :
    s ∈ (collectCandidates root).dedup ↔
      specRuleA root s ∨ specRuleB root s ∨ specRuleC root s := by
  rw [List.mem_dedup, collectCandidates]
  simp only [List.mem_append, method1, method2, method3, List.mem_filterMap,
    List.mem_flatMap, m1elem_eq_some, m2elem_eq_some, mem_m3elem,
    specRuleA, specRuleB, specRuleC]
  constructor
  · rintro ((⟨e, he, hc, v, hm, hv, rfl⟩ | h) | h)
    · exact Or.inl ⟨e, he, Or.inr hc, v, hm, hv.2, rfl⟩
    · exact Or.inr (Or.inl h)
    · exact Or.inr (Or.inr h)
  · rintro (⟨e, he, hc, v, hm, hv, rfl⟩ | h | h)
    · refine Or.inl (Or.inl ⟨e, he, ?_, v, hm, ⟨ne_empty_of_strTrim hv, hv⟩, rfl⟩)
      rcases hc with heq | h2 | h2
      · exact Or.inl (by rw [heq]; decide)
      · exact Or.inl h2
      · exact Or.inr h2
    · exact Or.inl (Or.inr h)
    · exact Or.inr h

theorem mergeSort_strings_eq_of_perm {l₁ l₂ : List String} (h : l₁.Perm l₂) :
    l₁.mergeSort leString = l₂.mergeSort leString := by
  apply List.eq_of_perm_of_sorted (r := fun a b : String => a ≤ b)
  · exact (List.mergeSort_perm l₁ leString).trans
      (h.trans (List.mergeSort_perm l₂ leString).symm)
  · exact (List.sorted_mergeSort leString_trans leString_total l₁).imp
      (fun hab => by simpa [leString, decide_eq_true_eq] using hab)
  · exact (List.sorted_mergeSort leString_trans leString_total l₂).imp
      (fun hab => by simpa [leString, decide_eq_true_eq] using hab)

theorem mergeSort_records_eq_of_perm (fs : FileSys) (pd : String) {qs₁ qs₂ : List String}
    (h : qs₁.Perm qs₂) :
    (qs₁.map (recordOfPath fs pd)).mergeSort leRecord =
      (qs₂.map (recordOfPath fs pd)).mergeSort leRecord := by
  have hself : ∀ qs : List String, ∀ a ∈ (qs.map (recordOfPath fs pd)).mergeSort leRecord,
      a = recordOfPath fs pd a.path := by
    intro qs a ha
    have hmem : a ∈ qs.map (recordOfPath fs pd) := (List.mergeSort_perm _ leRecord).subset ha
    obtain ⟨q, -, rfl⟩ := List.mem_map.mp hmem
    rfl
  have hkeys : ((qs₁.map (recordOfPath fs pd)).mergeSort leRecord).map (fun a => a.path) =
      ((qs₂.map (recordOfPath fs pd)).mergeSort leRecord).map (fun a => a.path) := by
    apply List.eq_of_perm_of_sorted (r := fun a b : String => a ≤ b)
    · exact ((List.mergeSort_perm _ leRecord).map _).trans
        (((h.map _).map _).trans ((List.mergeSort_perm _ leRecord).map _).symm)
    · exact (List.pairwise_map).mpr
        ((List.sorted_mergeSort leRecord_trans leRecord_total _).imp
          (fun hab => by simpa [leRecord, decide_eq_true_eq] using hab))
    · exact (List.pairwise_map).mpr
        ((List.sorted_mergeSort leRecord_trans leRecord_total _).imp
          (fun hab => by simpa [leRecord, decide_eq_true_eq] using hab))
  have e₁ : (qs₁.map (recordOfPath fs pd)).mergeSort leRecord =
      (((qs₁.map (recordOfPath fs pd)).mergeSort leRecord).map (fun a => a.path)).map
        (recordOfPath fs pd) := by
    rw [List.map_map]
    simpa using List.map_congr_left
      (fun a ha => (hself qs₁ a ha : (id a : AssetRecord) = recordOfPath fs pd a.path))
  have e₂ : (qs₂.map (recordOfPath fs pd)).mergeSort leRecord =
      (((qs₂.map (recordOfPath fs pd)).mergeSort leRecord).map (fun a => a.path)).map
        (recordOfPath fs pd) := by
    rw [List.map_map]
    simpa using List.map_congr_left
      (fun a ha => (hself qs₂ a ha : (id a : AssetRecord) = recordOfPath fs pd a.path))
  rw [e₁, hkeys, ← e₂]

/-- C8: extraction is deterministic: the iteration order of the unordered
candidate set does not leak into the report.  Processing any two
permutations of the candidate list against the same filesystem yields
identical reports. -/
theorem deterministic_report (fs : FileSys) (p : String) (l₁ l₂ : List String)
    (hperm : l₁.Perm l₂) :
    reportFromCands fs p l₁ = reportFromCands fs p l₂ := by
  simp only [reportFromCands, processCandidates_eq]
  set pd := dirname (abspath fs.cwd p) with hpd
  have hfound : (foundCands fs pd l₁).Perm (foundCands fs pd l₂) :=
    (hperm.filter _).filter _
  have hmiss : (missCands fs pd l₁).Perm (missCands fs pd l₂) :=
    (hperm.filter _).filter _
  simp only [Report.mk.injEq]
  refine ⟨trivial, ?_, ?_, ?_⟩
  · have hm1 : (foundCands fs pd l₁).map
        (fun c => recordOfPath fs pd (normalizeCandidate pd c)) =
        ((foundCands fs pd l₁).map (normalizeCandidate pd)).map (recordOfPath fs pd) := by
      rw [List.map_map]
      rfl
    have hm2 : (foundCands fs pd l₂).map
        (fun c => recordOfPath fs pd (normalizeCandidate pd c)) =
        ((foundCands fs pd l₂).map (normalizeCandidate pd)).map (recordOfPath fs pd) := by
      rw [List.map_map]
      rfl
    rw [hm1, hm2]
    exact mergeSort_records_eq_of_perm fs pd (hfound.map _)
  · exact mergeSort_strings_eq_of_perm (hmiss.map _)
  · exact (hfound.map (fun c => fs.getsize (normalizeCandidate pd c))).sum_eq

/-- Witness for C8: two orders of the same two-candidate set give the same
report. -/
theorem deterministic_report_witness :
    reportFromCands fsC "/work/proj.aepx" ["b.png", "a.png"] =
      reportFromCands fsC "/work/proj.aepx" ["a.png", "b.png"] :=
  deterministic_report fsC "/work/proj.aepx" ["b.png", "a.png"] ["a.png", "b.png"] (by decide)

/-- C6: for a well-formed input, `assets` and `missing_assets` partition the
deduplicated candidate set after URL-scheme and empty-string filtering
(`survivors`): together they are a permutation of the normalized surviving
candidates, no path is in both lists, and the entry count equals the number
of distinct surviving candidates. -/
theorem partition_report (fs : FileSys) (p : String) (root : XElem)
    (h : fs.parseXML p = some root) :
    ((parse_aepx fs p).assets.map (fun a => a.path) ++
      (parse_aepx fs p).missing_assets).Perm
      ((survivors root).map (normalizeCandidate (dirname (abspath fs.cwd p)))) ∧
    (∀ q, q ∈ (parse_aepx fs p).assets.map (fun a => a.path) →
      q ∉ (parse_aepx fs p).missing_assets) ∧
    (parse_aepx fs p).assets.length + (parse_aepx fs p).missing_assets.length =
      (survivors root).length := by
  have hrep : parse_aepx fs p = reportFromCands fs p (collectCandidates root).dedup := by
    simp [parse_aepx, h]
  rw [hrep]
  simp only [reportFromCands, processCandidates_eq]
  set pd := dirname (abspath fs.cwd p) with hpd
  set cands := (collectCandidates root).dedup with hcands
  have hA : ((((foundCands fs pd cands).map
      (fun c => recordOfPath fs pd (normalizeCandidate pd c))).mergeSort leRecord).map
        (fun a => a.path)).Perm
      ((foundCands fs pd cands).map (normalizeCandidate pd)) := by
    refine ((List.mergeSort_perm _ leRecord).map _).trans ?_
    rw [List.map_map]
    exact List.Perm.refl _
  have hM : ((((missCands fs pd cands).map (normalizeCandidate pd)).mergeSort
      leString)).Perm ((missCands fs pd cands).map (normalizeCandidate pd)) :=
    List.mergeSort_perm _ leString
  have hunion : (foundCands fs pd cands ++ missCands fs pd cands).Perm
      ((survivors root).filter (fun _ => true)) := by
    have hfa := List.filter_append_perm
      (fun c => existsFile fs (normalizeCandidate pd c)) (cands.filter survives)
    simpa [foundCands, missCands, survivors, hcands] using hfa
  have hunion' : (foundCands fs pd cands ++ missCands fs pd cands).Perm (survivors root) := by
    simpa using hunion
  have hPerm : (((((foundCands fs pd cands).map
      (fun c => recordOfPath fs pd (normalizeCandidate pd c))).mergeSort leRecord).map
        (fun a => a.path)) ++
      (((missCands fs pd cands).map (normalizeCandidate pd)).mergeSort leString)).Perm
      ((survivors root).map (normalizeCandidate pd)) := by
    refine (hA.append hM).trans ?_
    rw [← List.map_append]
    exact hunion'.map _
  refine ⟨hPerm, ?_, ?_⟩
  · intro q hq hq'
    have h1 : q ∈ (foundCands fs pd cands).map (normalizeCandidate pd) := hA.subset hq
    have h2 : q ∈ (missCands fs pd cands).map (normalizeCandidate pd) := hM.subset hq'
    obtain ⟨c1, hc1, he1⟩ := List.mem_map.mp h1
    obtain ⟨c2, hc2, he2⟩ := List.mem_map.mp h2
    have hex1 : existsFile fs (normalizeCandidate pd c1) = true :=
      (List.mem_filter.mp hc1).2
    have hex2 : (!existsFile fs (normalizeCandidate pd c2)) = true :=
      (List.mem_filter.mp hc2).2
    rw [he1] at hex1
    rw [he2] at hex2
    rw [hex1] at hex2
    simp at hex2
  · have hlen := hPerm.length_eq
    simpa using hlen

/-- Witness for C6 on the concrete document `docG` over the filesystem
`fsG`. -/
theorem partition_report_witness :
    ((parse_aepx fsG "/work/proj.aepx").assets.map (fun a => a.path) ++
      (parse_aepx fsG "/work/proj.aepx").missing_assets).Perm
      ((survivors docG).map (normalizeCandidate (dirname (abspath fsG.cwd "/work/proj.aepx")))) ∧
    (∀ q, q ∈ (parse_aepx fsG "/work/proj.aepx").assets.map (fun a => a.path) →
      q ∉ (parse_aepx fsG "/work/proj.aepx").missing_assets) ∧
    (parse_aepx fsG "/work/proj.aepx").assets.length +
      (parse_aepx fsG "/work/proj.aepx").missing_assets.length = (survivors docG).length :=
  partition_report fsG "/work/proj.aepx" docG rfl

end Aepx
